import Mathlib

/-!
Shallow embedding of `src/src/async_support.rs` (swift-bridge main-thread
async support).

The source keeps two thread-local cells:

  ASYNC_RUNTIME : RefCell (Option Runtime)   -- tokio runtime, lazily built
  TASKS         : RefCell (Vec AsyncFnToSpawn)

and exposes two operations:

  spawn_task(task)              -- TASKS.with(|t| t.borrow_mut().push(task))
  swift_bridge_update_runtime() -- lazily construct the runtime, then
                                   block_on { while let Some(task) =
                                     TASKS.with(|t| t.borrow_mut().pop())
                                     { task.await; }
                                     yield_now().await }

A work item (a boxed future) is embedded as the list of its observable
steps: a unit of its own logic, an internal suspension point (an await
that yields to the executor and is later resumed in place — `task.await`
inside `block_on` drives the task through such points to completion
before the drain loop continues), or a call to `spawn_task` for a child
item.  Machine-level effects the claims talk about — the RefCell borrow
flags of both cells, tokio's "may not block_on while already driving
async tasks on this thread" check, and the fallibility of
`Runtime::new()` — are carried explicitly in the state.
-/

namespace AsyncRt

/-- One observable step of a work item's body: a unit of its own logic
(tagged so traces show which logic ran), an internal suspension point,
or a `spawn_task` call submitting a child item (given by the child's own
list of steps). -/
inductive Action : Type where
  | effect (tag : Nat)
  | suspendPoint (tag : Nat)
  | spawnChild (child : List Action)

mutual

/-- Boolean equality on steps (the nested inductive needs a hand-written
decidable equality). -/
def Action.beq : Action → Action → Bool
  | .effect t, .effect t' => t == t'
  | .suspendPoint t, .suspendPoint t' => t == t'
  | .spawnChild c, .spawnChild c' => Action.beqList c c'
  | _, _ => false

/-- Boolean equality on lists of steps. -/
def Action.beqList : List Action → List Action → Bool
  | [], [] => true
  | a :: as, b :: bs => Action.beq a b && Action.beqList as bs
  | _, _ => false

end

mutual

theorem Action.eq_of_beq : ∀ {a b : Action}, Action.beq a b = true → a = b
  | .effect _, .effect _, h => by
    simp only [Action.beq, beq_iff_eq] at h; rw [h]
  | .suspendPoint _, .suspendPoint _, h => by
    simp only [Action.beq, beq_iff_eq] at h; rw [h]
  | .spawnChild c, .spawnChild c', h => by
    rw [Action.eqList_of_beqList (a := c) (b := c') h]
  | .effect _, .suspendPoint _, h => by simp [Action.beq] at h
  | .effect _, .spawnChild _, h => by simp [Action.beq] at h
  | .suspendPoint _, .effect _, h => by simp [Action.beq] at h
  | .suspendPoint _, .spawnChild _, h => by simp [Action.beq] at h
  | .spawnChild _, .effect _, h => by simp [Action.beq] at h
  | .spawnChild _, .suspendPoint _, h => by simp [Action.beq] at h

theorem Action.eqList_of_beqList : ∀ {a b : List Action},
    Action.beqList a b = true → a = b
  | [], [], _ => rfl
  | x :: xs, y :: ys, h => by
    have h' := h
    simp only [Action.beqList, Bool.and_eq_true] at h'
    rw [Action.eq_of_beq h'.1, Action.eqList_of_beqList h'.2]
  | [], _ :: _, h => by simp [Action.beqList] at h
  | _ :: _, [], h => by simp [Action.beqList] at h

end

mutual

theorem Action.beq_refl : ∀ a : Action, Action.beq a a = true
  | .effect _ => by simp [Action.beq]
  | .suspendPoint _ => by simp [Action.beq]
  | .spawnChild c => Action.beqList_refl c

theorem Action.beqList_refl : ∀ a : List Action, Action.beqList a a = true
  | [] => rfl
  | x :: xs => by
    simp only [Action.beqList, Bool.and_eq_true]
    exact ⟨Action.beq_refl x, Action.beqList_refl xs⟩

end

instance : DecidableEq Action := fun a b =>
  if h : Action.beq a b = true then .isTrue (Action.eq_of_beq h)
  else .isFalse (fun he => h (he ▸ Action.beq_refl a))

/-- A work item is the list of steps its body performs when driven to
completion. -/
abbrev WorkItem := List Action

/-- Events observable in one run: runtime construction, an item beginning
execution, a unit of item logic running, a suspension and its resumption,
a `spawn_task` call, an item finishing, and the final cooperative yield. -/
inductive Event : Type where
  | constructedRuntime (stamp : Nat)
  | began (w : WorkItem)
  | ran (tag : Nat)
  | suspended (tag : Nat)
  | resumed (tag : Nat)
  | spawned (w : WorkItem)
  | finished (w : WorkItem)
  | yielded
deriving DecidableEq

/-- Reasons the embedded program can panic, mirroring the real failure
points: `Runtime::new().unwrap()` on a construction error, tokio's check
against calling `block_on` from inside an async context, and the three
RefCell borrow checks (mutable borrow of TASKS, shared borrow of
ASYNC_RUNTIME, mutable borrow of ASYNC_RUNTIME). -/
inductive Panic : Type where
  | runtimeNewFailed
  | blockOnWithinAsyncContext
  | tasksBorrowConflict
  | runtimeBorrowConflict
  | runtimeBorrowMutConflict
deriving DecidableEq

/-- The thread-local state of the designated thread.

`asyncRuntime` holds the creation stamp of the tokio runtime if one was
constructed (the stamp is the value of `ctorCount` at construction time);
`ctorCount` counts how many `Runtime::new()` constructions ever ran.
`tasksBorrowed` is the mutable-borrow flag of the TASKS RefCell;
`runtimeSharedBorrows` / `runtimeMutBorrowed` are the borrow counters of
the ASYNC_RUNTIME RefCell; `inBlockOn` records whether the thread is
currently inside `Runtime::block_on` (tokio panics on nesting it).
`tasks` is the Vec held by TASKS, oldest submission first. -/
structure St : Type where
  asyncRuntime : Option Nat
  ctorCount : Nat
  tasksBorrowed : Bool
  runtimeSharedBorrows : Nat
  runtimeMutBorrowed : Bool
  inBlockOn : Bool
  tasks : List WorkItem
deriving DecidableEq

/-- Result of running a piece of the embedded program: either a panic
(with the state as the panic escapes, transient borrow guards already
dropped by unwinding) or a normal return carrying a value and the state. -/
inductive Outcome (α : Type) : Type where
  | panicked (reason : Panic) (state : St)
  | ok (value : α) (state : St)
deriving DecidableEq

/-- The state carried by an outcome, whichever way it ended. -/
def Outcome.state : Outcome α → St
  | .panicked _ s => s
  | .ok _ s => s

/-- Embeds `spawn_task`: `TASKS.with(|t| t.borrow_mut().push(task))`.
The mutable borrow is acquired and released inside the call, so the net
borrow flag is unchanged; `Vec::push` appends at the end. -/
def spawn_task (w : WorkItem) (s : St) : Outcome Unit :=
  if s.tasksBorrowed then .panicked .tasksBorrowConflict s
  else .ok () { s with tasks := s.tasks ++ [w] }

/-- Embeds one drain-loop query, `TASKS.with(|t| t.borrow_mut().pop())`
(the spec's `take_next()`): a transient mutable borrow, then `Vec::pop`,
which removes and returns the LAST element if any. -/
def take_next (s : St) : Outcome (Option WorkItem) :=
  if s.tasksBorrowed then .panicked .tasksBorrowConflict s
  else
    match s.tasks.getLast? with
    | none => .ok none s
    | some w => .ok (some w) { s with tasks := s.tasks.dropLast }

/-- Embeds driving one work item's body through its steps (what
`task.await` does inside `block_on`): each unit of logic emits its event;
a suspension point yields to the executor and is resumed in place; a
`spawnChild` step performs `spawn_task` on the live state. -/
def exec : List Action → St → Outcome (List Event)
  | [], s => .ok [] s
  | .effect t :: rest, s =>
    match exec rest s with
    | .panicked p s' => .panicked p s'
    | .ok es s' => .ok (.ran t :: es) s'
  | .suspendPoint t :: rest, s =>
    match exec rest s with
    | .panicked p s' => .panicked p s'
    | .ok es s' => .ok (.suspended t :: .resumed t :: es) s'
  | .spawnChild c :: rest, s =>
    match spawn_task c s with
    | .panicked p s' => .panicked p s'
    | .ok _ s' =>
      match exec rest s' with
      | .panicked p s'' => .panicked p s''
      | .ok es s'' => .ok (.spawned c :: es) s''

/-- The children a body submits via `spawn_task`, in submission order. -/
def spawnList : List Action → List WorkItem
  | [] => []
  | .spawnChild c :: rest => c :: spawnList rest
  | .effect _ :: rest => spawnList rest
  | .suspendPoint _ :: rest => spawnList rest

/-- The event trace one body emits when driven to completion. -/
def stepEvents : List Action → List Event
  | [] => []
  | .effect t :: rest => .ran t :: stepEvents rest
  | .suspendPoint t :: rest => .suspended t :: .resumed t :: stepEvents rest
  | .spawnChild c :: rest => .spawned c :: stepEvents rest

mutual

/-- Weight of one step; a `spawnChild` weighs the whole child so that
executing an item strictly shrinks the total weight of pending work. -/
def actionWeight : Action → Nat
  | .effect _ => 1
  | .suspendPoint _ => 1
  | .spawnChild c => 1 + stepsWeight c

/-- Total weight of a body's steps. -/
def stepsWeight : List Action → Nat
  | [] => 0
  | a :: rest => actionWeight a + stepsWeight rest

end

/-- Weight of one queued item. -/
def itemWeight (w : WorkItem) : Nat := 1 + stepsWeight w

/-- Total weight of a queue of items. -/
def queueWeight : List WorkItem → Nat
  | [] => 0
  | w :: q => itemWeight w + queueWeight q

theorem queueWeight_append (q q' : List WorkItem) :
    queueWeight (q ++ q') = queueWeight q + queueWeight q' := by
  induction q with
  | nil => simp [queueWeight]
  | cons w q ih => simp [queueWeight, ih]; omega

theorem queueWeight_spawnList_le (steps : List Action) :
    queueWeight (spawnList steps) ≤ stepsWeight steps := by
  induction steps with
  | nil => simp [spawnList, stepsWeight, queueWeight]
  | cons a rest ih =>
    cases a with
    | effect t => simp [spawnList, stepsWeight, actionWeight]; omega
    | suspendPoint t => simp [spawnList, stepsWeight, actionWeight]; omega
    | spawnChild c =>
      simp [spawnList, stepsWeight, actionWeight, queueWeight, itemWeight]
      omega

/-- Driving a body on an unborrowed queue never panics: every
`spawn_task` it performs finds the TASKS cell free, the emitted trace is
the body's step trace, and the only state change is that the body's
children are appended to the queue in submission order. -/
theorem exec_ok_state (steps : List Action) (s : St)
    (h : s.tasksBorrowed = false) :
    exec steps s = .ok (stepEvents steps)
      { s with tasks := s.tasks ++ spawnList steps } := by
  induction steps generalizing s with
  | nil => simp [exec, stepEvents, spawnList]
  | cons a rest ih =>
    cases a with
    | effect t => simp [exec, ih s h, stepEvents, spawnList]
    | suspendPoint t => simp [exec, ih s h, stepEvents, spawnList]
    | spawnChild c =>
      have hs : spawn_task c s = .ok () { s with tasks := s.tasks ++ [c] } := by
        simp [spawn_task, h]
      have hrest := ih { s with tasks := s.tasks ++ [c] } (by simp [h])
      simp [exec, hs, hrest, stepEvents, spawnList]

theorem take_next_ok_some {s s' : St} {w : WorkItem}
    (h : take_next s = .ok (some w) s') :
    s.tasksBorrowed = false ∧ s.tasks = s'.tasks ++ [w] ∧
      s' = { s with tasks := s.tasks.dropLast } := by
  unfold take_next at h
  by_cases hb : s.tasksBorrowed
  · rw [if_pos hb] at h; exact Outcome.noConfusion h
  · rw [if_neg hb] at h
    cases hl : s.tasks.getLast? with
    | none => rw [hl] at h; injection h with h1 _; exact Option.noConfusion h1
    | some w' =>
      rw [hl] at h
      injection h with h1 h2
      injection h1 with h1
      subst h1
      subst h2
      refine ⟨by simpa using hb, ?_, rfl⟩
      exact (List.dropLast_append_getLast? w' hl).symm

theorem take_next_ok_none {s s' : St}
    (h : take_next s = .ok none s') :
    s.tasksBorrowed = false ∧ s.tasks = [] ∧ s' = s := by
  unfold take_next at h
  by_cases hb : s.tasksBorrowed
  · rw [if_pos hb] at h; exact Outcome.noConfusion h
  · rw [if_neg hb] at h
    cases hl : s.tasks.getLast? with
    | none =>
      rw [hl] at h
      injection h with _ h2
      exact ⟨by simpa using hb, List.getLast?_eq_none_iff.mp hl, h2.symm⟩
    | some w' =>
      rw [hl] at h; injection h with h1 _; exact Option.noConfusion h1

/-- Embeds the drain loop inside `block_on`:
`while let Some(task) = TASKS.with(|t| t.borrow_mut().pop()) { task.await; }`.
Each iteration takes one item off the end of the queue (releasing the
borrow before the body runs), drives it to completion, and re-queries the
queue, until the queue reports empty. -/
def drain (s : St) : Outcome (List Event) :=
  match h1 : take_next s with
  | .panicked p s' => .panicked p s'
  | .ok none s' => .ok [] s'
  | .ok (some w) s' =>
    match h2 : exec w s' with
    | .panicked p s'' => .panicked p s''
    | .ok es s'' =>
      match drain s'' with
      | .panicked p s3 => .panicked p s3
      | .ok es2 s3 => .ok (.began w :: es ++ .finished w :: es2) s3
termination_by queueWeight s.tasks
decreasing_by
  obtain ⟨hb, htasks, hs'⟩ := take_next_ok_some h1
  have hb' : s'.tasksBorrowed = false := by rw [hs']; exact hb
  have := exec_ok_state w s' hb'
  rw [this] at h2
  have hst : s'' = { s' with tasks := s'.tasks ++ spawnList w } := by
    injection h2 with _ h; exact h.symm
  have h3 : queueWeight s''.tasks = queueWeight s'.tasks + queueWeight (spawnList w) := by
    rw [hst]; exact queueWeight_append _ _
  have h4 := queueWeight_spawnList_le w
  have h5 : queueWeight s.tasks = queueWeight s'.tasks + itemWeight w := by
    rw [htasks, queueWeight_append]; simp [queueWeight]
  rw [h3, h5]
  unfold itemWeight
  omega

/-- The items a trace reports as finished (reaching `Completed`), in
completion order. -/
def finishedSeq : List Event → List WorkItem
  | [] => []
  | .finished w :: rest => w :: finishedSeq rest
  | .constructedRuntime _ :: rest => finishedSeq rest
  | .began _ :: rest => finishedSeq rest
  | .ran _ :: rest => finishedSeq rest
  | .suspended _ :: rest => finishedSeq rest
  | .resumed _ :: rest => finishedSeq rest
  | .spawned _ :: rest => finishedSeq rest
  | .yielded :: rest => finishedSeq rest

/-- The items a trace reports as beginning execution, in start order. -/
def beganSeq : List Event → List WorkItem
  | [] => []
  | .began w :: rest => w :: beganSeq rest
  | .constructedRuntime _ :: rest => beganSeq rest
  | .finished _ :: rest => beganSeq rest
  | .ran _ :: rest => beganSeq rest
  | .suspended _ :: rest => beganSeq rest
  | .resumed _ :: rest => beganSeq rest
  | .spawned _ :: rest => beganSeq rest
  | .yielded :: rest => beganSeq rest

mutual

/-- Every item a body's execution will put through the queue: for each
`spawnChild c` step, the child `c` itself and, recursively, everything
the child's execution spawns. -/
def closureSteps : List Action → List WorkItem
  | [] => []
  | .effect _ :: rest => closureSteps rest
  | .suspendPoint _ :: rest => closureSteps rest
  | .spawnChild c :: rest => (c :: closureSteps c) ++ closureSteps rest

end

/-- Every item a whole queue will put through the executor: each queued
item plus everything its execution transitively spawns. -/
def closureQueue : List WorkItem → List WorkItem
  | [] => []
  | w :: q => (w :: closureSteps w) ++ closureQueue q

theorem finishedSeq_append (a b : List Event) :
    finishedSeq (a ++ b) = finishedSeq a ++ finishedSeq b := by
  induction a with
  | nil => rfl
  | cons e rest ih => cases e <;> simp [finishedSeq, ih]

theorem beganSeq_append (a b : List Event) :
    beganSeq (a ++ b) = beganSeq a ++ beganSeq b := by
  induction a with
  | nil => rfl
  | cons e rest ih => cases e <;> simp [beganSeq, ih]

theorem finishedSeq_stepEvents (steps : List Action) :
    finishedSeq (stepEvents steps) = [] := by
  induction steps with
  | nil => rfl
  | cons a rest ih => cases a <;> simp [stepEvents, finishedSeq, ih]

theorem beganSeq_stepEvents (steps : List Action) :
    beganSeq (stepEvents steps) = [] := by
  induction steps with
  | nil => rfl
  | cons a rest ih => cases a <;> simp [stepEvents, beganSeq, ih]

theorem closureQueue_append (q q' : List WorkItem) :
    closureQueue (q ++ q') = closureQueue q ++ closureQueue q' := by
  induction q with
  | nil => rfl
  | cons w q ih => simp [closureQueue, ih]

theorem closureQueue_spawnList (steps : List Action) :
    closureQueue (spawnList steps) = closureSteps steps := by
  induction steps with
  | nil => simp [spawnList, closureSteps, closureQueue]
  | cons a rest ih => cases a <;> simp [spawnList, closureSteps, closureQueue, ih]

theorem take_next_no_panic {s : St} (hb : s.tasksBorrowed = false)
    {p : Panic} {s' : St} (h : take_next s = .panicked p s') : False := by
  unfold take_next at h
  rw [if_neg (by simp [hb])] at h
  cases hl : s.tasks.getLast? with
  | none => rw [hl] at h; exact Outcome.noConfusion h
  | some w => rw [hl] at h; exact Outcome.noConfusion h

/-- Master drain theorem: starting from a state whose TASKS cell is not
borrowed, the drain loop returns normally, leaves the queue empty and
every other state component untouched, and both the multiset of items
that began execution and the multiset of items that finished equal the
multiset of all queued items together with everything they transitively
spawn: every unit of work is started exactly once and completed exactly
once within the one drain. -/
theorem drain_ok (s : St) (hb : s.tasksBorrowed = false) :
    ∃ es, drain s = .ok es { s with tasks := [] } ∧
      (finishedSeq es).Perm (closureQueue s.tasks) ∧
      (beganSeq es).Perm (closureQueue s.tasks) := by
  rw [drain]
  split
  · next p s1 heq => exact (take_next_no_panic hb heq).elim
  · next s1 heq =>
    obtain ⟨_, htasks, hs1⟩ := take_next_ok_none heq
    rw [hs1, htasks]
    have hself : { s with tasks := ([] : List WorkItem) } = s := by
      cases s; simp_all
    rw [hself]
    exact ⟨[], rfl, by simp [finishedSeq, closureQueue], by simp [beganSeq, closureQueue]⟩
  · next w s1 heq =>
    obtain ⟨hb0, htasks, hs1⟩ := take_next_ok_some heq
    have hb1 : s1.tasksBorrowed = false := by rw [hs1]; exact hb
    split
    · next p s2 heq2 =>
      rw [exec_ok_state w s1 hb1] at heq2
      exact Outcome.noConfusion heq2
    · next es s2 heq2 =>
      rw [exec_ok_state w s1 hb1] at heq2
      injection heq2 with hes hs2
      have hb2 : s2.tasksBorrowed = false := by rw [← hs2]; exact hb1
      have htasks2 : s2.tasks = s1.tasks ++ spawnList w := by rw [← hs2]
      have hdec : queueWeight s2.tasks < queueWeight s.tasks := by
        rw [htasks2, htasks, queueWeight_append, queueWeight_append]
        have := queueWeight_spawnList_le w
        simp [queueWeight, itemWeight]
        omega
      obtain ⟨es2, hd, hfin, hbeg⟩ := drain_ok s2 hb2
      rw [hd]
      have hclo : closureQueue s2.tasks =
          closureQueue s1.tasks ++ closureSteps w := by
        rw [htasks2, closureQueue_append, closureQueue_spawnList]
      rw [hclo] at hfin hbeg
      refine ⟨.began w :: es ++ .finished w :: es2, ?_, ?_, ?_⟩
      · have hrec : { s2 with tasks := ([] : List WorkItem) } =
            { s with tasks := ([] : List WorkItem) } := by
          rw [← hs2, hs1]
        rw [hrec]
      · subst hes
        rw [htasks, closureQueue_append]
        simp only [finishedSeq, List.append_eq, finishedSeq_append,
          finishedSeq_stepEvents, List.nil_append, closureQueue, List.append_nil]
        exact (hfin.cons w).trans List.perm_middle.symm
      · subst hes
        rw [htasks, closureQueue_append]
        simp only [beganSeq, List.append_eq, beganSeq_append,
          beganSeq_stepEvents, List.nil_append, closureQueue, List.append_nil]
        exact (hbeg.cons w).trans List.perm_middle.symm
termination_by queueWeight s.tasks
decreasing_by exact hdec

/-- The state in which `pump()` runs its drain loop: the ASYNC_RUNTIME
cell holds one extra shared borrow (the `if let` guard lives for the
whole block) and the thread is marked as blocking inside `block_on`. -/
def drainEntry (s : St) : St :=
  { s with runtimeSharedBorrows := s.runtimeSharedBorrows + 1, inBlockOn := true }

/-- Embeds `swift_bridge_update_runtime` (the spec's `pump()`).  The
parameter `ctorFails` is the environment's verdict on `Runtime::new()`:
`true` means construction returns an error, which `.unwrap()` turns into
a panic.  The steps mirror the source line by line:

1. `ASYNC_RUNTIME.with`, then `if runtime_cell.borrow().is_none()` — a
   transient shared borrow, which fails only if a mutable borrow is live;
2. in the then-branch, `*runtime_cell.borrow_mut() = Some(Runtime::new().unwrap())`
   — a transient mutable borrow (fails if any borrow is live), then the
   fallible construction;
3. `if let Some(rt) = &*runtime_cell.borrow()` — a shared borrow held for
   the whole block;
4. `rt.block_on(async { drain; yield_now })` — tokio panics if the thread
   is already inside `block_on` (the guard from step 3 is dropped while
   that panic unwinds, so the escaping state carries no extra borrow);
5. on normal completion, the cooperative yield, the end of `block_on`,
   and the drop of the step-3 guard. -/
def swift_bridge_update_runtime (ctorFails : Bool) (s : St) : Outcome (List Event) :=
  if s.runtimeMutBorrowed then .panicked .runtimeBorrowConflict s
  else
    match
      (if s.asyncRuntime.isNone then
        if s.runtimeMutBorrowed || s.runtimeSharedBorrows != 0 then
          .panicked .runtimeBorrowMutConflict s
        else if ctorFails then .panicked .runtimeNewFailed s
        else .ok [Event.constructedRuntime s.ctorCount]
          { s with asyncRuntime := some s.ctorCount, ctorCount := s.ctorCount + 1 }
      else (.ok [] s : Outcome (List Event))) with
    | .panicked p s1 => .panicked p s1
    | .ok es0 s1 =>
      if s1.runtimeMutBorrowed then .panicked .runtimeBorrowConflict s1
      else
        match s1.asyncRuntime with
        | none => .ok es0 s1
        | some _ =>
          if s1.inBlockOn then .panicked .blockOnWithinAsyncContext s1
          else
            match drain (drainEntry s1) with
            | .panicked p s3 => .panicked p s3
            | .ok es1 s3 =>
              .ok (es0 ++ es1 ++ [Event.yielded])
                { s3 with
                  runtimeSharedBorrows := s3.runtimeSharedBorrows - 1,
                  inBlockOn := false }

/-- A body consisting only of its own logic: no suspension points and no
submissions of further work. -/
def plainBody : List Action → Bool
  | [] => true
  | .effect _ :: rest => plainBody rest
  | .suspendPoint _ :: _ => false
  | .spawnChild _ :: _ => false

/-- The trace one item contributes when the drain runs it. -/
def itemTrace (w : WorkItem) : List Event :=
  .began w :: stepEvents w ++ [.finished w]

/-- The trace of a drain that runs the given items in the given order. -/
def drainTraceOf : List WorkItem → List Event
  | [] => []
  | w :: q => itemTrace w ++ drainTraceOf q

/-- One external call into the module: a producer submitting work, or the
host's periodic pump (with the environment's verdict on `Runtime::new()`
for that call). -/
inductive Call : Type where
  | spawnCall (w : WorkItem)
  | pumpCall (ctorFails : Bool)

/-- Runs one external call. -/
def runCall : Call → St → Outcome (List Event)
  | .spawnCall w, s =>
    match spawn_task w s with
    | .panicked p s' => .panicked p s'
    | .ok _ s' => .ok [] s'
  | .pumpCall cf, s => swift_bridge_update_runtime cf s

/-- Runs a sequence of external calls on the designated thread; a panic
ends the run. -/
def runScript : List Call → St → Outcome (List Event)
  | [], s => .ok [] s
  | c :: cs, s =>
    match runCall c s with
    | .panicked p s' => .panicked p s'
    | .ok es s' =>
      match runScript cs s' with
      | .panicked p s'' => .panicked p s''
      | .ok es2 s'' => .ok (es ++ es2) s''

/-- The thread-local state at thread start: no runtime yet, nothing
borrowed, not inside `block_on`, empty queue. -/
def freshSt : St :=
  { asyncRuntime := none, ctorCount := 0, tasksBorrowed := false,
    runtimeSharedBorrows := 0, runtimeMutBorrowed := false,
    inBlockOn := false, tasks := [] }

/-- A sequence of plain submissions. -/
def submitScript (q : List WorkItem) : List Call := q.map .spawnCall

/-- States reachable between external calls: neither RefCell is borrowed
and the thread is not inside `block_on`. -/
def Good (s : St) : Prop :=
  s.tasksBorrowed = false ∧ s.runtimeMutBorrowed = false ∧
    s.runtimeSharedBorrows = 0 ∧ s.inBlockOn = false

theorem plainBody_spawnList {steps : List Action} (h : plainBody steps = true) :
    spawnList steps = [] := by
  induction steps with
  | nil => rfl
  | cons a rest ih =>
    cases a with
    | effect t => exact ih h
    | suspendPoint t => simp [plainBody] at h
    | spawnChild c => simp [plainBody] at h

/-- Ordered drain theorem: when no queued item submits further work, the
drain runs exactly the queued items, most recently submitted first
(`Vec::pop` order), each contributing its begin/step/finish trace, and
empties the queue.  Suspension points are allowed: they are driven
through within the same drain. -/
theorem drain_plain (s : St) (hb : s.tasksBorrowed = false)
    (hp : ∀ w ∈ s.tasks, spawnList w = []) :
    drain s = .ok (drainTraceOf s.tasks.reverse) { s with tasks := [] } := by
  rw [drain]
  split
  · next p s1 heq => exact (take_next_no_panic hb heq).elim
  · next s1 heq =>
    obtain ⟨_, htasks, hs1⟩ := take_next_ok_none heq
    rw [hs1, htasks]
    have hself : { s with tasks := ([] : List WorkItem) } = s := by
      cases s; simp_all
    rw [hself]
    rfl
  · next w s1 heq =>
    obtain ⟨hb0, htasks, hs1⟩ := take_next_ok_some heq
    have hb1 : s1.tasksBorrowed = false := by rw [hs1]; exact hb
    have hw : w ∈ s.tasks := by rw [htasks]; simp
    have hwnil : spawnList w = [] := hp w hw
    split
    · next p s2 heq2 =>
      rw [exec_ok_state w s1 hb1] at heq2
      exact Outcome.noConfusion heq2
    · next es s2 heq2 =>
      rw [exec_ok_state w s1 hb1] at heq2
      injection heq2 with hes hs2
      have hb2 : s2.tasksBorrowed = false := by rw [← hs2]; exact hb1
      have htasks2 : s2.tasks = s1.tasks := by rw [← hs2]; simp [hwnil]
      have hp2 : ∀ v ∈ s2.tasks, spawnList v = [] := by
        intro v hv
        refine hp v ?_
        rw [htasks]
        rw [htasks2] at hv
        exact List.mem_append_left _ hv
      have hdec : queueWeight s2.tasks < queueWeight s.tasks := by
        rw [htasks2, htasks, queueWeight_append]
        simp [queueWeight, itemWeight]
      rw [drain_plain s2 hb2 hp2]
      have hrec : { s2 with tasks := ([] : List WorkItem) } =
          { s with tasks := ([] : List WorkItem) } := by
        rw [← hs2, hs1]
      rw [hrec]
      have htr : s.tasks.reverse = w :: s2.tasks.reverse := by
        rw [htasks2, htasks, hs1]
        simp
      rw [htr]
      subst hes
      simp [drainTraceOf, itemTrace]
termination_by queueWeight s.tasks
decreasing_by exact hdec

theorem stepEvents_append (a b : List Action) :
    stepEvents (a ++ b) = stepEvents a ++ stepEvents b := by
  induction a with
  | nil => rfl
  | cons x rest ih => cases x <;> simp [stepEvents, ih]

theorem spawnList_append (a b : List Action) :
    spawnList (a ++ b) = spawnList a ++ spawnList b := by
  induction a with
  | nil => rfl
  | cons x rest ih => cases x <;> simp [spawnList, ih]

theorem beganSeq_drainTraceOf (l : List WorkItem) :
    beganSeq (drainTraceOf l) = l := by
  induction l with
  | nil => rfl
  | cons w q ih =>
    simp [drainTraceOf, itemTrace, beganSeq, beganSeq_append, beganSeq_stepEvents, ih]

theorem finishedSeq_drainTraceOf (l : List WorkItem) :
    finishedSeq (drainTraceOf l) = l := by
  induction l with
  | nil => rfl
  | cons w q ih =>
    simp [drainTraceOf, itemTrace, finishedSeq, finishedSeq_append,
      finishedSeq_stepEvents, ih]

/-- Computation law for `pump()` on an already-initialized runtime: the
construction branch is skipped, the drain runs inside `block_on` (with
the runtime cell borrowed and the thread marked as blocking), the
cooperative yield is appended, and the borrow and blocking marks are
released. -/
theorem pump_initialized_eq (cf : Bool) (s : St) (r : Nat) (es : List Event)
    (sd : St) (hrt : s.asyncRuntime = some r) (hmb : s.runtimeMutBorrowed = false)
    (hbo : s.inBlockOn = false)
    (hd : drain (drainEntry s) = .ok es sd) :
    swift_bridge_update_runtime cf s =
      .ok (es ++ [.yielded])
        { sd with runtimeSharedBorrows := sd.runtimeSharedBorrows - 1, inBlockOn := false } := by
  simp only [drainEntry, hrt, hmb] at hd
  simp [swift_bridge_update_runtime, drainEntry, hrt, hmb, hbo, hd]

/-- Computation law for `pump()` on the first call (runtime cell still
empty, `Runtime::new()` succeeding): the runtime is constructed and
stored, then the drain and yield run as usual. -/
theorem pump_uninitialized_eq (s : St) (es : List Event) (sd : St)
    (hrt : s.asyncRuntime = none) (hmb : s.runtimeMutBorrowed = false)
    (hsh : s.runtimeSharedBorrows = 0) (hbo : s.inBlockOn = false)
    (hd : drain (drainEntry { s with asyncRuntime := some s.ctorCount, ctorCount := s.ctorCount + 1 }) = .ok es sd) :
    swift_bridge_update_runtime false s =
      .ok (.constructedRuntime s.ctorCount :: (es ++ [.yielded]))
        { sd with runtimeSharedBorrows := sd.runtimeSharedBorrows - 1, inBlockOn := false } := by
  simp only [drainEntry, hmb, hsh, hbo] at hd
  simp [swift_bridge_update_runtime, drainEntry, hrt, hmb, hsh, hbo, hd]

/-- An already-initialized pump on a queue of items that spawn nothing:
the items run most recently submitted first, each driven straight to
completion, then the yield; the queue is left empty and everything else
is untouched. -/
theorem pump_initialized_plain (cf : Bool) (s : St) (r : Nat)
    (hrt : s.asyncRuntime = some r) (hg : Good s)
    (hp : ∀ w ∈ s.tasks, spawnList w = []) :
    swift_bridge_update_runtime cf s =
      .ok (drainTraceOf s.tasks.reverse ++ [.yielded]) { s with tasks := [] } := by
  obtain ⟨htb, hmb, hsh, hbo⟩ := hg
  have hd := drain_plain (drainEntry s) htb hp
  rw [pump_initialized_eq cf s r _ _ hrt hmb hbo hd]
  simp [drainEntry, hbo]

/-- A first-call pump on a queue of items that spawn nothing: the runtime
is constructed (stamped with the construction counter), then the items
run most recently submitted first, then the yield. -/
theorem pump_uninitialized_plain (s : St)
    (hrt : s.asyncRuntime = none) (hg : Good s)
    (hp : ∀ w ∈ s.tasks, spawnList w = []) :
    swift_bridge_update_runtime false s =
      .ok (.constructedRuntime s.ctorCount ::
            (drainTraceOf s.tasks.reverse ++ [.yielded]))
        { s with asyncRuntime := some s.ctorCount, ctorCount := s.ctorCount + 1, tasks := [] } := by
  obtain ⟨htb, hmb, hsh, hbo⟩ := hg
  have hd := drain_plain
    (drainEntry { s with asyncRuntime := some s.ctorCount, ctorCount := s.ctorCount + 1 })
    htb hp
  rw [pump_uninitialized_eq s _ _ hrt hmb hsh hbo hd]
  simp [drainEntry, hbo]

/-- An already-initialized pump on an arbitrary queue: it returns
normally with the queue empty, and the multisets of begun and finished
items both equal the queued items plus everything they transitively
spawn. -/
theorem pump_initialized_perm (cf : Bool) (s : St) (r : Nat)
    (hrt : s.asyncRuntime = some r) (hg : Good s) :
    ∃ es, swift_bridge_update_runtime cf s = .ok (es ++ [.yielded]) { s with tasks := [] } ∧
      (finishedSeq es).Perm (closureQueue s.tasks) ∧
      (beganSeq es).Perm (closureQueue s.tasks) := by
  obtain ⟨htb, hmb, hsh, hbo⟩ := hg
  obtain ⟨es, hd, hfin, hbeg⟩ := drain_ok (drainEntry s) htb
  refine ⟨es, ?_, hfin, hbeg⟩
  rw [pump_initialized_eq cf s r _ _ hrt hmb hbo hd]
  simp [drainEntry, hbo]

/-- Submitting a batch of items one by one appends them, in order, to
whatever is already queued; no submission fails. -/
theorem runScript_submit (q : List WorkItem) (s : St)
    (htb : s.tasksBorrowed = false) :
    runScript (submitScript q) s = .ok [] { s with tasks := s.tasks ++ q } := by
  induction q generalizing s with
  | nil => simp [submitScript, runScript]
  | cons w q ih =>
    have hw : spawn_task w s = .ok () { s with tasks := s.tasks ++ [w] } := by
      simp [spawn_task, htb]
    have ih' := ih { s with tasks := s.tasks ++ [w] } htb
    simp [submitScript, runScript, runCall, hw] at ih' ⊢
    simp [ih']

theorem mem_closureSteps_of_spawnChild {c : WorkItem} {steps : List Action}
    (h : Action.spawnChild c ∈ steps) : c ∈ closureSteps steps := by
  induction steps with
  | nil => cases h
  | cons a rest ih =>
    rcases List.mem_cons.mp h with ha | h'
    · rw [← ha]
      simp [closureSteps]
    · cases a with
      | effect t => simpa [closureSteps] using ih h'
      | suspendPoint t => simpa [closureSteps] using ih h'
      | spawnChild c' =>
        simp only [closureSteps, List.mem_append]
        exact Or.inr (ih h')

theorem mem_closureQueue_of_mem {w : WorkItem} {q : List WorkItem} (hw : w ∈ q)
    {c : WorkItem} (hc : Action.spawnChild c ∈ w) : c ∈ closureQueue q := by
  induction q with
  | nil => cases hw
  | cons v q ih =>
    simp only [closureQueue, List.mem_append, List.mem_cons]
    rcases List.mem_cons.mp hw with rfl | hw'
    · exact Or.inl (Or.inr (mem_closureSteps_of_spawnChild hc))
    · exact Or.inr (ih hw')

theorem finished_mem_of_mem_finishedSeq {c : WorkItem} {es : List Event}
    (h : c ∈ finishedSeq es) : Event.finished c ∈ es := by
  induction es with
  | nil => cases h
  | cons e rest ih =>
    cases e <;> simp only [finishedSeq, List.mem_cons] at h ⊢
    case finished w =>
      rcases h with rfl | h'
      · exact Or.inl rfl
      · exact Or.inr (ih h')
    all_goals exact Or.inr (ih h)

/-- The first pump with a failing `Runtime::new()`: `.unwrap()` panics
before any drain is attempted, leaving the whole state (in particular
the still-undrained queue) exactly as it was. -/
theorem pump_ctorFails (s : St) (hrt : s.asyncRuntime = none)
    (hmb : s.runtimeMutBorrowed = false) (hsh : s.runtimeSharedBorrows = 0) :
    swift_bridge_update_runtime true s = .panicked .runtimeNewFailed s := by
  simp [swift_bridge_update_runtime, hrt, hmb, hsh]

/-- Construction bookkeeping reachable from a fresh thread: either the
runtime was never constructed, or it was constructed exactly once (with
stamp 0). -/
def CtorInv (s : St) : Prop :=
  (s.asyncRuntime = none ∧ s.ctorCount = 0) ∨
    (s.asyncRuntime = some 0 ∧ s.ctorCount = 1)

/-- Any single external call from a between-calls state either returns
normally — preserving the between-calls shape, and either leaving the
runtime cell and construction count untouched or performing the one lazy
construction (only from the uninitialized state) — or panics out of a
failed first construction with the state unchanged. -/
theorem runCall_good (c : Call) (s : St) (hg : Good s) :
    (∃ es s', runCall c s = .ok es s' ∧ Good s' ∧
      ((s'.asyncRuntime = s.asyncRuntime ∧ s'.ctorCount = s.ctorCount) ∨
       (s.asyncRuntime = none ∧ s'.asyncRuntime = some s.ctorCount ∧
        s'.ctorCount = s.ctorCount + 1))) ∨
    (runCall c s = .panicked .runtimeNewFailed s ∧ s.asyncRuntime = none) := by
  obtain ⟨htb, hmb, hsh, hbo⟩ := hg
  cases c with
  | spawnCall w =>
    left
    refine ⟨[], { s with tasks := s.tasks ++ [w] }, ?_, ⟨htb, hmb, hsh, hbo⟩,
      Or.inl ⟨rfl, rfl⟩⟩
    simp [runCall, spawn_task, htb]
  | pumpCall cf =>
    cases hrt : s.asyncRuntime with
    | some r =>
      obtain ⟨es, hp, _, _⟩ := pump_initialized_perm cf s r hrt ⟨htb, hmb, hsh, hbo⟩
      left
      refine ⟨es ++ [.yielded], { s with tasks := [] }, ?_,
        ⟨htb, hmb, hsh, hbo⟩, Or.inl ⟨hrt, rfl⟩⟩
      simpa [runCall] using hp
    | none =>
      cases cf with
      | true =>
        right
        refine ⟨?_, rfl⟩
        simpa [runCall] using pump_ctorFails s hrt hmb hsh
      | false =>
        left
        obtain ⟨es, hd, _, _⟩ := drain_ok (drainEntry { s with asyncRuntime := some s.ctorCount, ctorCount := s.ctorCount + 1 }) htb
        have hp := pump_uninitialized_eq s es _ hrt hmb hsh hbo hd
        refine ⟨Event.constructedRuntime s.ctorCount :: (es ++ [Event.yielded]),
          { s with asyncRuntime := some s.ctorCount, ctorCount := s.ctorCount + 1, tasks := [] },
          ?_, ⟨htb, hmb, hsh, hbo⟩, Or.inr ⟨rfl, rfl, rfl⟩⟩
        simp only [runCall]
        rw [hp]
        simp [drainEntry, hsh, hbo]

/-- Between-calls shape and construction bookkeeping hold after any
sequence of external calls, whether it ends normally or in a panic. -/
theorem runScript_good (calls : List Call) (s : St) (hg : Good s)
    (hi : CtorInv s) :
    Good (runScript calls s).state ∧ CtorInv (runScript calls s).state := by
  induction calls generalizing s with
  | nil => exact ⟨hg, hi⟩
  | cons c cs ih =>
    rcases runCall_good c s hg with ⟨es, s', hc, hg', htrans⟩ | ⟨hc, hrt⟩
    · have hi' : CtorInv s' := by
        rcases htrans with ⟨ha, hcc⟩ | ⟨hnone, ha, hcc⟩
        · rcases hi with ⟨h1, h2⟩ | ⟨h1, h2⟩
          · exact Or.inl ⟨ha.trans h1, hcc.trans h2⟩
          · exact Or.inr ⟨ha.trans h1, hcc.trans h2⟩
        · rcases hi with ⟨h1, h2⟩ | ⟨h1, h2⟩
          · exact Or.inr ⟨by rw [ha, h2], by rw [hcc, h2]⟩
          · rw [h1] at hnone; cases hnone
      have hrest := ih s' hg' hi'
      simp only [runScript, hc]
      cases hrr : runScript cs s' with
      | panicked p s2 => rw [hrr] at hrest; simpa [Outcome.state] using hrest
      | ok es2 s2 => rw [hrr] at hrest; simpa [Outcome.state] using hrest
    · simp only [runScript, hc, Outcome.state]
      exact ⟨hg, hi⟩

/-- Once the runtime cell is initialized, every further sequence of
external calls runs without panic, keeps the very same runtime, and
preserves the between-calls shape. -/
theorem runScript_keeps_runtime (calls : List Call) (s : St) (r : Nat)
    (hg : Good s) (hrt : s.asyncRuntime = some r) :
    ∃ es2 s2, runScript calls s = .ok es2 s2 ∧ s2.asyncRuntime = some r ∧
      Good s2 := by
  induction calls generalizing s with
  | nil => exact ⟨[], s, rfl, hrt, hg⟩
  | cons c cs ih =>
    rcases runCall_good c s hg with ⟨es, s', hc, hg', htrans⟩ | ⟨hc, hnone⟩
    · have hrt' : s'.asyncRuntime = some r := by
        rcases htrans with ⟨ha, _⟩ | ⟨hnone, _, _⟩
        · rw [ha, hrt]
        · rw [hnone] at hrt; cases hrt
      obtain ⟨es2, s2, hrr, hrt2, hg2⟩ := ih s' hg' hrt'
      exact ⟨es ++ es2, s2, by simp only [runScript, hc, hrr], hrt2, hg2⟩
    · rw [hnone] at hrt; cases hrt

/-- Running a script made of two stages: if the first stage returns
normally, the whole script is the first stage followed by the second,
traces concatenated. -/
theorem runScript_append_ok {a : List Call} {s : St} {es : List Event}
    {s' : St} (h : runScript a s = .ok es s') (b : List Call)
    {es2 : List Event} {s2 : St} (h2 : runScript b s' = .ok es2 s2) :
    runScript (a ++ b) s = .ok (es ++ es2) s2 := by
  induction a generalizing s es with
  | nil =>
    unfold runScript at h
    injection h with h1 h3
    subst h3
    rw [← h1]
    simpa using h2
  | cons c cs ih =>
    simp only [runScript] at h
    cases hc : runCall c s with
    | panicked p s1 =>
      simp only [hc] at h
      exact Outcome.noConfusion h
    | ok es1 s1 =>
      simp only [hc] at h
      cases hrr : runScript cs s1 with
      | panicked p sA =>
        simp only [hrr] at h
        exact Outcome.noConfusion h
      | ok esA sA =>
        simp only [hrr] at h
        injection h with h1 h3
        subst h3
        have hcomb := ih hrr
        show runScript (c :: (cs ++ b)) s = _
        simp only [runScript, hc, hcomb]
        rw [← h1, List.append_assoc]

/-- C1: for every finite sequence of work-item submissions followed by a
single `pump()` call, where no item suspends and no item submits further
work, every submitted item is executed exactly once within that `pump()`
call and no item is executed twice (the begin and finish traces are
exactly the submitted items, each occurrence once), and the task queue is
empty when `pump()` returns. -/
theorem claim_C1 (q : List WorkItem) (hq : ∀ w ∈ q, plainBody w = true) :
    ∃ s1, runScript (submitScript q) freshSt = .ok [] s1 ∧ s1.tasks = q ∧
      ∃ es s2, swift_bridge_update_runtime false s1 = .ok es s2 ∧
        s2.tasks = [] ∧ beganSeq es = q.reverse ∧ finishedSeq es = q.reverse := by
  have hsub := runScript_submit q freshSt rfl
  refine ⟨{ freshSt with tasks := q }, by simpa [freshSt] using hsub, rfl, ?_⟩
  have hp : ∀ w ∈ ({ freshSt with tasks := q } : St).tasks, spawnList w = [] :=
    fun w hw => plainBody_spawnList (hq w hw)
  have hpump := pump_uninitialized_plain { freshSt with tasks := q } rfl
    ⟨rfl, rfl, rfl, rfl⟩ hp
  refine ⟨_, _, hpump, rfl, ?_, ?_⟩
  · simp [beganSeq, beganSeq_append, beganSeq_drainTraceOf]
  · simp [finishedSeq, finishedSeq_append, finishedSeq_drainTraceOf]

theorem claim_C1_witness :
    ∃ s1, runScript (submitScript [[Action.effect 7], [Action.effect 8]]) freshSt =
        .ok [] s1 ∧
      s1.tasks = [[Action.effect 7], [Action.effect 8]] ∧
      ∃ es s2, swift_bridge_update_runtime false s1 = .ok es s2 ∧
        s2.tasks = [] ∧
        beganSeq es = [[Action.effect 7], [Action.effect 8]].reverse ∧
        finishedSeq es = [[Action.effect 7], [Action.effect 8]].reverse :=
  claim_C1 [[Action.effect 7], [Action.effect 8]] (by decide)

/-- C2: the queue's removal policy is one fixed rule, last-in-first-out:
`take_next` always removes the most recently submitted item, and in a
pump over items submitted in the order `xs, A, ys, B, zs` (A before B)
with no further submissions during the drain, the begin order is the
exact reversal of submission order, so B begins execution before A. -/
theorem claim_C2 :
    (∀ (s : St) (q : List WorkItem) (w : WorkItem), s.tasksBorrowed = false →
      s.tasks = q ++ [w] → take_next s = .ok (some w) { s with tasks := q }) ∧
    (∀ (s : St) (r : Nat) (xs ys zs : List WorkItem) (A B : WorkItem),
      s.asyncRuntime = some r → Good s →
      s.tasks = xs ++ A :: (ys ++ B :: zs) →
      (∀ w ∈ s.tasks, plainBody w = true) →
      ∃ es, swift_bridge_update_runtime false s = .ok es { s with tasks := [] } ∧
        beganSeq es = zs.reverse ++ B :: (ys.reverse ++ A :: xs.reverse)) := by
  constructor
  · intro s q w htb htasks
    simp [take_next, htb, htasks, List.getLast?_concat, List.dropLast_concat]
  · intro s r xs ys zs A B hrt hg htasks hplain
    have hp : ∀ w ∈ s.tasks, spawnList w = [] :=
      fun w hw => plainBody_spawnList (hplain w hw)
    have hpump := pump_initialized_plain false s r hrt hg hp
    refine ⟨_, hpump, ?_⟩
    rw [htasks]
    simp [beganSeq_append, beganSeq_drainTraceOf, beganSeq]

theorem claim_C2_witness :
    take_next { freshSt with tasks := [[Action.effect 0], [Action.effect 1]] } =
      .ok (some [Action.effect 1]) { freshSt with tasks := [[Action.effect 0]] } ∧
    ∃ es, swift_bridge_update_runtime false
        { freshSt with asyncRuntime := some 0, ctorCount := 1, tasks := [[Action.effect 0], [Action.effect 1]] } =
        .ok es { freshSt with asyncRuntime := some 0, ctorCount := 1 } ∧
      beganSeq es = [[Action.effect 1], [Action.effect 0]] :=
  ⟨claim_C2.1 _ [[Action.effect 0]] [Action.effect 1] rfl rfl,
    claim_C2.2 _ 0 [] [] [] [Action.effect 0] [Action.effect 1] rfl
      ⟨rfl, rfl, rfl, rfl⟩ rfl (by decide)⟩

/-- C3: if during a `pump()` call an executing work item submits a new
work item, the new item enters the task queue and is also executed to
completion within the same `pump()` call, before `pump()` returns (its
`finished` event is in that call's trace and the queue is empty on
return). -/
theorem claim_C3 (s : St) (r : Nat) (w c : WorkItem)
    (hrt : s.asyncRuntime = some r) (hg : Good s)
    (hw : w ∈ s.tasks) (hc : Action.spawnChild c ∈ w) :
    ∃ es s2, swift_bridge_update_runtime false s = .ok es s2 ∧
      s2.tasks = [] ∧ Event.finished c ∈ es := by
  obtain ⟨es, hpump, hfin, _⟩ := pump_initialized_perm false s r hrt hg
  refine ⟨es ++ [.yielded], _, hpump, rfl, ?_⟩
  have hcc : c ∈ closureQueue s.tasks := mem_closureQueue_of_mem hw hc
  have hcf : c ∈ finishedSeq es := hfin.mem_iff.mpr hcc
  exact List.mem_append_left _ (finished_mem_of_mem_finishedSeq hcf)

theorem claim_C3_witness :
    ∃ es s2, swift_bridge_update_runtime false
        { freshSt with asyncRuntime := some 0, ctorCount := 1, tasks := [[Action.spawnChild [Action.effect 5]]] } = .ok es s2 ∧
      s2.tasks = [] ∧ Event.finished [Action.effect 5] ∈ es :=
  claim_C3 _ 0 [Action.spawnChild [Action.effect 5]] [Action.effect 5] rfl
    ⟨rfl, rfl, rfl, rfl⟩ (by simp) (by simp)

/-- C4: if construction of the Executor State (`Runtime::new()`) fails on
the first `pump()` call, `pump()` does not return normally with the queue
silently undrained: `.unwrap()` panics before any drain is attempted and
the state — in particular the still-pending queue — is exactly as it
was. -/
theorem claim_C4 (s : St) (hrt : s.asyncRuntime = none)
    (hmb : s.runtimeMutBorrowed = false) (hsh : s.runtimeSharedBorrows = 0) :
    swift_bridge_update_runtime true s = .panicked .runtimeNewFailed s :=
  pump_ctorFails s hrt hmb hsh

theorem claim_C4_witness :
    swift_bridge_update_runtime true { freshSt with tasks := [[Action.effect 1]] } =
      .panicked .runtimeNewFailed { freshSt with tasks := [[Action.effect 1]] } :=
  claim_C4 { freshSt with tasks := [[Action.effect 1]] } rfl rfl rfl

/-- C5: the Executor State is constructed lazily on the first `pump()`
call only: across every sequence of external calls on the thread,
starting fresh, at most one `Runtime::new()` ever runs (whether the
sequence ends normally or in a panic), and once the runtime cell is
initialized it is never re-created or replaced — every extension of the
call sequence keeps the very same runtime value. -/
theorem claim_C5 :
    (∀ calls : List Call, (runScript calls freshSt).state.ctorCount ≤ 1) ∧
    (∀ (pre post : List Call) (es : List Event) (s1 : St) (r : Nat),
      runScript pre freshSt = .ok es s1 → s1.asyncRuntime = some r →
      ∃ es2 s2, runScript (pre ++ post) freshSt = .ok es2 s2 ∧
        s2.asyncRuntime = some r) := by
  have hfresh : Good freshSt := ⟨rfl, rfl, rfl, rfl⟩
  have hinv : CtorInv freshSt := Or.inl ⟨rfl, rfl⟩
  constructor
  · intro calls
    obtain ⟨_, hci⟩ := runScript_good calls freshSt hfresh hinv
    rcases hci with ⟨_, h⟩ | ⟨_, h⟩ <;> omega
  · intro pre post es s1 r hpre hrt
    have hg1 : Good s1 := by
      have hgs := (runScript_good pre freshSt hfresh hinv).1
      rw [hpre] at hgs
      simpa [Outcome.state] using hgs
    obtain ⟨es2, s2, hrun, hrt2, _⟩ := runScript_keeps_runtime post s1 r hg1 hrt
    exact ⟨es ++ es2, s2, runScript_append_ok hpre post hrun, hrt2⟩

theorem claim_C5_witness :
    (runScript [Call.pumpCall false, Call.pumpCall false] freshSt).state.ctorCount ≤ 1 ∧
    ∃ es2 s2, runScript ([Call.pumpCall false] ++ [Call.pumpCall false]) freshSt =
        .ok es2 s2 ∧ s2.asyncRuntime = some 0 := by
  have hpump := pump_uninitialized_plain freshSt rfl ⟨rfl, rfl, rfl, rfl⟩
    (by intro w hwm; simp [freshSt] at hwm)
  have hpre : runScript [Call.pumpCall false] freshSt =
      .ok [Event.constructedRuntime 0, Event.yielded]
        { freshSt with asyncRuntime := some 0, ctorCount := 1 } := by
    simp only [runScript, runCall]
    rw [hpump]
    simp [freshSt, drainTraceOf]
  exact ⟨claim_C5.1 [Call.pumpCall false, Call.pumpCall false],
    claim_C5.2 [Call.pumpCall false] [Call.pumpCall false] _ _ 0 hpre rfl⟩

/-- C6 counterexample input: one item with logic before and after an
internal suspension point. -/
def c6item : WorkItem := [Action.effect 0, Action.suspendPoint 1, Action.effect 2]

/-- C6 counterexample: an item that suspends mid-execution during pump
call N does not resume in a later pump call — `block_on` drives it
through the suspension within call N itself.  Concretely, the first pump
call's trace shows the item suspending, resuming and finishing, with the
queue empty on return and nothing parked: the next pump call performs
only the yield.  This refutes the claim's assertion that the item
reaches `Completed` during a later pump call. -/
theorem claim_C6_counterexample :
    swift_bridge_update_runtime false { freshSt with tasks := [c6item] } =
      .ok [Event.constructedRuntime 0, Event.began c6item, Event.ran 0,
           Event.suspended 1, Event.resumed 1, Event.ran 2,
           Event.finished c6item, Event.yielded]
        { freshSt with asyncRuntime := some 0, ctorCount := 1 } ∧
    ({ freshSt with asyncRuntime := some 0, ctorCount := 1 } : St).tasks = [] ∧
    swift_bridge_update_runtime false
        { freshSt with asyncRuntime := some 0, ctorCount := 1 } =
      .ok [Event.yielded] { freshSt with asyncRuntime := some 0, ctorCount := 1 } := by
  refine ⟨?_, rfl, ?_⟩
  · have hpump := pump_uninitialized_plain { freshSt with tasks := [c6item] } rfl
      ⟨rfl, rfl, rfl, rfl⟩
      (by intro w hw; simp at hw; rw [hw]; rfl)
    rw [hpump]
    simp [freshSt, c6item, drainTraceOf, itemTrace, stepEvents]
  · have hpump := pump_initialized_plain false
      { freshSt with asyncRuntime := some 0, ctorCount := 1 } 0 rfl
      ⟨rfl, rfl, rfl, rfl⟩ (by intro w hw; simp [freshSt] at hw)
    rw [hpump]
    simp [freshSt, drainTraceOf]

/-- C6 (amended): an item that suspends mid-execution never reappears in
the Task Queue and none of its pre-suspension logic is re-run; but it is
not parked for a later pump call: `block_on` drives it through the
suspension to completion within pump call N itself, the single call's
trace showing the pre-suspension steps once, the suspension and its
in-place resumption, the post-suspension steps once and the finish, with
the queue empty on return. -/
theorem claim_C6 (s : St) (r t : Nat) (pre post : List Action)
    (hrt : s.asyncRuntime = some r) (hg : Good s)
    (hw : s.tasks = [pre ++ Action.suspendPoint t :: post])
    (hpre : spawnList pre = []) (hpost : spawnList post = []) :
    swift_bridge_update_runtime false s =
      .ok (Event.began (pre ++ Action.suspendPoint t :: post) ::
            (stepEvents pre ++ Event.suspended t :: Event.resumed t ::
              (stepEvents post ++
                [Event.finished (pre ++ Action.suspendPoint t :: post),
                 Event.yielded])))
        { s with tasks := [] } := by
  have hp : ∀ w ∈ s.tasks, spawnList w = [] := by
    intro w hwm
    rw [hw] at hwm
    simp at hwm
    rw [hwm]
    simp [spawnList_append, hpre, spawnList, hpost]
  have hpump := pump_initialized_plain false s r hrt hg hp
  rw [hpump, hw]
  simp [drainTraceOf, itemTrace, stepEvents_append, stepEvents]

theorem claim_C6_witness :
    swift_bridge_update_runtime false
        { freshSt with asyncRuntime := some 0, ctorCount := 1, tasks := [c6item] } =
      .ok (Event.began ([Action.effect 0] ++ Action.suspendPoint 1 :: [Action.effect 2]) ::
            (stepEvents [Action.effect 0] ++ Event.suspended 1 :: Event.resumed 1 ::
              (stepEvents [Action.effect 2] ++
                [Event.finished ([Action.effect 0] ++ Action.suspendPoint 1 :: [Action.effect 2]),
                 Event.yielded])))
        { { freshSt with asyncRuntime := some 0, ctorCount := 1, tasks := [c6item] } with
          tasks := [] } :=
  claim_C6 _ 0 1 [Action.effect 0] [Action.effect 2] rfl ⟨rfl, rfl, rfl, rfl⟩ rfl rfl rfl

/-- C7: `submit` (`spawn_task`) from any state in which the TASKS cell is
not mid-borrow always succeeds, appends the item at the end of the
queue (length grows by exactly one), and leaves all previously queued
items and their relative order unchanged. -/
theorem claim_C7 (s : St) (w : WorkItem) (htb : s.tasksBorrowed = false) :
    spawn_task w s = .ok () { s with tasks := s.tasks ++ [w] } ∧
      (s.tasks ++ [w]).length = s.tasks.length + 1 ∧
      (s.tasks ++ [w]).take s.tasks.length = s.tasks :=
  ⟨by simp [spawn_task, htb], by simp, List.take_left s.tasks [w]⟩

theorem claim_C7_witness :
    spawn_task [Action.effect 3] freshSt =
      .ok () { freshSt with tasks := freshSt.tasks ++ [[Action.effect 3]] } ∧
      (freshSt.tasks ++ [[Action.effect 3]]).length = freshSt.tasks.length + 1 ∧
      (freshSt.tasks ++ [[Action.effect 3]]).take freshSt.tasks.length = freshSt.tasks :=
  claim_C7 freshSt [Action.effect 3] rfl

/-- C8: an empty pump is idempotent: with the runtime already initialized
and the queue empty, `pump()` returns the state exactly unchanged (no
re-construction, no queue effect) and its whole observable behavior is
the one mandatory yield checkpoint; and the lazy initialization happens
on the first call only, constructing exactly one Executor State. -/
theorem claim_C8 (s : St) (r : Nat) (hrt : s.asyncRuntime = some r)
    (ht : s.tasks = []) (hg : Good s) :
    swift_bridge_update_runtime false s = .ok [Event.yielded] s ∧
      swift_bridge_update_runtime false freshSt =
        .ok [Event.constructedRuntime 0, Event.yielded]
          { freshSt with asyncRuntime := some 0, ctorCount := 1 } := by
  constructor
  · have hp : ∀ w ∈ s.tasks, spawnList w = [] := by
      intro w hwm; rw [ht] at hwm; cases hwm
    have hpump := pump_initialized_plain false s r hrt hg hp
    rw [hpump, ht]
    have hself : { s with tasks := ([] : List WorkItem) } = s := by
      cases s; simp_all
    rw [hself]
    simp [drainTraceOf]
  · have hpump := pump_uninitialized_plain freshSt rfl ⟨rfl, rfl, rfl, rfl⟩
      (by intro w hwm; simp [freshSt] at hwm)
    rw [hpump]
    simp [freshSt, drainTraceOf]

theorem claim_C8_witness :
    swift_bridge_update_runtime false { freshSt with asyncRuntime := some 0, ctorCount := 1 } =
      .ok [Event.yielded] { freshSt with asyncRuntime := some 0, ctorCount := 1 } ∧
    swift_bridge_update_runtime false freshSt =
      .ok [Event.constructedRuntime 0, Event.yielded]
        { freshSt with asyncRuntime := some 0, ctorCount := 1 } :=
  claim_C8 { freshSt with asyncRuntime := some 0, ctorCount := 1 } 0 rfl rfl
    ⟨rfl, rfl, rfl, rfl⟩

/-- C9: a re-entrant `pump()` from within an executing work item is
disallowed and fails fast.  `pump()` runs its drain at `drainEntry`
states — runtime cell borrowed (at least one outstanding shared borrow)
and thread marked inside `block_on` — and a pump call issued from any
such state passes the cell's borrow checks (shared borrows coexist) but
panics at the nested `block_on`, before any task is popped, with the
whole state (queue, runtime cell, construction count) untouched. -/
theorem claim_C9 (cf : Bool) (s : St) (r : Nat)
    (hin : s.inBlockOn = true) (hrt : s.asyncRuntime = some r)
    (hmb : s.runtimeMutBorrowed = false) (hsh : 1 ≤ s.runtimeSharedBorrows) :
    swift_bridge_update_runtime cf s = .panicked .blockOnWithinAsyncContext s ∧
    (∀ s0 : St, (drainEntry s0).inBlockOn = true ∧
      1 ≤ (drainEntry s0).runtimeSharedBorrows) := by
  refine ⟨?_, fun s0 => ⟨rfl, by simp [drainEntry]⟩⟩
  simp [swift_bridge_update_runtime, hrt, hmb, hin]

theorem claim_C9_witness :
    swift_bridge_update_runtime false
        { asyncRuntime := some 0, ctorCount := 1, tasksBorrowed := false,
          runtimeSharedBorrows := 1, runtimeMutBorrowed := false,
          inBlockOn := true, tasks := [[Action.effect 9]] } =
      .panicked .blockOnWithinAsyncContext
        { asyncRuntime := some 0, ctorCount := 1, tasksBorrowed := false,
          runtimeSharedBorrows := 1, runtimeMutBorrowed := false,
          inBlockOn := true, tasks := [[Action.effect 9]] } :=
  (claim_C9 false _ 0 rfl rfl rfl (Nat.le_refl 1)).1

/-- C10: the drain loop takes and releases the TASKS borrow for each
single removal (`take_next` leaves the cell unborrowed) and never holds
it while an item's body runs, so the queue is available for mutation at
every point where work-item code executes: driving a body never panics,
each `spawn_task` it performs succeeds, and the queue ends as the
original queue with the spawned children appended in order. -/
theorem claim_C10 (steps : List Action) (s : St) (htb : s.tasksBorrowed = false) :
    exec steps s = .ok (stepEvents steps) { s with tasks := s.tasks ++ spawnList steps } ∧
    (∀ w : WorkItem, spawn_task w s = .ok () { s with tasks := s.tasks ++ [w] }) ∧
    (∀ (s1 : St) (ow : Option WorkItem), take_next s = .ok ow s1 →
      s1.tasksBorrowed = false) := by
  refine ⟨exec_ok_state steps s htb, fun w => by simp [spawn_task, htb], ?_⟩
  intro s1 ow hts
  cases ow with
  | none =>
    obtain ⟨_, _, h1⟩ := take_next_ok_none hts
    rw [h1]
    exact htb
  | some w =>
    obtain ⟨_, _, h1⟩ := take_next_ok_some hts
    rw [h1]
    exact htb

theorem claim_C10_witness :
    exec [Action.spawnChild [Action.effect 4]] freshSt =
      .ok (stepEvents [Action.spawnChild [Action.effect 4]])
        { freshSt with
          tasks := freshSt.tasks ++ spawnList [Action.spawnChild [Action.effect 4]] } ∧
    (∀ w : WorkItem, spawn_task w freshSt =
      .ok () { freshSt with tasks := freshSt.tasks ++ [w] }) ∧
    (∀ (s1 : St) (ow : Option WorkItem), take_next freshSt = .ok ow s1 →
      s1.tasksBorrowed = false) :=
  claim_C10 [Action.spawnChild [Action.effect 4]] freshSt rfl

end AsyncRt
